import Mathlib

/-!
# Verification of the ExoAifront i18n / dashboard front end

Shallow embedding, in Lean 4, of the parts of the ExoAifront repository that
the checked claims are about:

* the locale-coverage report script `scripts/generate_i18n_report.js`
  (`deepKeys`, `getValueByPath`, the missing-key filter and the coverage
  percentage computation);
* the auto-translation merge step `mergeTranslations` from the
  auto-translate tool;
* the locale-direction helpers `isRTL` / `getTextDirection`;
* the Demo page training simulation (`parseCsvLightCurve`, `handleRunJob`,
  the mock metric formulas);
* the Quantum / Adversarial page fetch handlers and the DataUpload page
  `uploadAndAnalyze` flow.

JSON values are modelled by the inductive type `Json`; JavaScript objects are
association lists in insertion order.  JavaScript numbers are modelled by `ℚ`
(or `ℝ` where `Math.log10` occurs); this idealises IEEE-754 floats, as usual
for a shallow embedding.
-/

set_option maxHeartbeats 1000000

/-- JSON values, as produced by `JSON.parse`: strings, numbers, booleans,
`null`, arrays and objects.  Objects are association lists in insertion
order; `JSON.parse` never produces duplicate keys (see `wfJson`). -/
inductive Json where
  | str (s : String)
  | num (q : ℚ)
  | bool (b : Bool)
  | null
  | arr (elems : List Json)
  | obj (fields : List (String × Json))
deriving Repr

/-- First-match lookup of a key in a JavaScript object's entry list
(JS object keys are unique, so first match is the match). -/
def lookupKey : List (String × Json) → String → Option Json
  | [], _ => none
  | (k', v') :: rest, k => if k' = k then some v' else lookupKey rest k

/-- JS property assignment `o[key] = v`: updating an existing key keeps its
position in the insertion order, a new key is appended at the end. -/
def setKey : List (String × Json) → String → Json → List (String × Json)
  | [], k, v => [(k, v)]
  | (k', v') :: rest, k, v =>
    if k' = k then (k, v) :: rest else (k', v') :: setKey rest k v

/-- `typeof value === 'object' && value !== null && !Array.isArray(value)`:
the test both scripts use to decide whether to recurse into a value.
Only a plain object satisfies it. -/
def isPlainObject : Json → Bool
  | .obj _ => true
  | _ => false

/-- JS truthiness of a JSON value: `null`, `false`, `0` and `""` are falsy,
everything else (including `{}` and `[]`) is truthy. -/
def isTruthy : Json → Bool
  | .str s => !(s = "")
  | .num q => !(q = 0)
  | .bool b => b
  | .null => false
  | .arr _ => true
  | .obj _ => true

/-- Truthiness of a JS property access result, where `none` models
`undefined` (which is falsy). -/
def isTruthyOpt : Option Json → Bool
  | none => false
  | some v => isTruthy v

/-!
## `scripts/generate_i18n_report.js`
-/

/-- `deepKeys(obj, prefix)` from `generate_i18n_report.js`: the dotted-path
leaf keys of a locale object.  Plain-object values are recursed into; every
other value (string, number, boolean, `null`, array) is a leaf.
`deepKeysFields` is the `for (const [key, value] of Object.entries(obj))`
loop. -/
def deepKeysFields (pre : String) : List (String × Json) → List String
  | [] => []
  | (key, value) :: rest =>
    let fullKey := if pre = "" then key else pre ++ "." ++ key
    (match value with
     | .obj fs => deepKeysFields fullKey fs
     | _ => [fullKey]) ++ deepKeysFields pre rest

/-- `deepKeys(obj)` with the default prefix `''`.  The script only calls it
on parsed locale files, which are objects; `Object.entries` of a non-object
primitive is empty. -/
def deepKeys : Json → List String
  | .obj fields => deepKeysFields "" fields
  | _ => []

/-- One step of `current?.[key]`: property access on a JSON value.  Objects
look the key up; arrays accept canonical numeric index strings; accessing a
property of a primitive or of `null`/`undefined` yields `undefined`
(prototype-inherited properties such as `length` are outside the JSON
model). -/
def jsIndex : Json → String → Option Json
  | .obj fields, k => lookupKey fields k
  | .arr xs, k => match k.toNat? with
    | some i => xs.get? i
    | none => none
  | _, _ => none

/-- `path.split(sep)` for a single-character separator, char by char
(JS semantics: `''.split('.')` is `['']`, separators at the ends produce
empty fields). -/
def splitCharAux (sep : Char) : List Char → List Char → List String
  | [], acc => [String.mk acc.reverse]
  | c :: rest, acc =>
    if c = sep then String.mk acc.reverse :: splitCharAux sep rest []
    else splitCharAux sep rest (c :: acc)

/-- `path.split('.')`. -/
def jsSplitDot (s : String) : List String := splitCharAux '.' s.toList []

/-- `getValueByPath(obj, path)` from `generate_i18n_report.js`:
`path.split('.').reduce((current, key) => current?.[key], obj)`. -/
def getValueByPath (j : Json) (path : String) : Option Json :=
  (jsSplitDot path).foldl
    (fun current key =>
      match current with
      | some v => jsIndex v key
      | none => none)
    (some j)

/-- `enKeys.filter(key => !getValueByPath(localeData, key))` from
`generate_i18n_report.js` `main`: the `missing_keys` list reported for a
locale.  Note the test is JS negation, so any falsy looked-up value counts
as missing. -/
def missingKeys (en locale : Json) : List String :=
  (deepKeys en).filter (fun key => !(isTruthyOpt (getValueByPath locale key)))

/-- `Math.round`: round half towards positive infinity. -/
def jsMathRound (q : ℚ) : ℤ := ⌊q + 1/2⌋

/-- The script's raw coverage ratio
`localeKeys.length / enKeys.length * 100`.  (JS division by zero would give
`Infinity`; the claims assume a non-empty English key list.) -/
def coverageRatio (en locale : Json) : ℚ :=
  ((deepKeys locale).length : ℚ) / ((deepKeys en).length : ℚ) * 100

/-- `coverage_percentage` as the script computes it:
`Math.round(coverage * 100) / 100`. -/
def coveragePercentage (en locale : Json) : ℚ :=
  (jsMathRound (coverageRatio en locale * 100) : ℚ) / 100

/-- Spec-side definition ("rounded to two decimal places"), stated
independently of the script, for comparison with `coveragePercentage`. -/
def roundedTo2dpSpec (q : ℚ) : ℚ := (⌊q * 100 + 1/2⌋ : ℚ) / 100

/-!
## `src/lib/i18n-utils.ts`: locale direction helpers
-/

/-- The `rtlLocales` list from `isRTL`. -/
def rtlLocales : List String := ["ar", "he", "fa", "ur"]

/-- `isRTL(locale)`: `rtlLocales.includes(locale)`. -/
def isRTL (locale : String) : Bool := rtlLocales.contains locale

/-- `getTextDirection(locale)`: `isRTL(locale) ? 'rtl' : 'ltr'`. -/
def getTextDirection (locale : String) : String :=
  if isRTL locale then "rtl" else "ltr"

/-!
## Auto-translation tool: `mergeTranslations`

The tool builds `deepTranslate(enData)` and then merges the existing manual
Arabic translations over it with `mergeTranslations(existing, translated)`.
-/

/-- Object spread `{...translated}` restricted to JSON values: an object
spreads to its entries, an array to index-keyed entries.  At every call
site the spread argument is either the object `deepTranslate(enData)` or a
value guarded by `typeof === 'object'` truthiness, so the primitive case
(modelled as no entries) is unreachable. -/
def spreadFields : Json → List (String × Json)
  | .obj fs => fs
  | .arr xs => (List.range xs.length).zip xs |>.map (fun p => (Nat.repr p.1, p.2))
  | _ => []

/-- The guard `result[key] && typeof result[key] === 'object'`: the looked-up
value is truthy and of JS type `object`, i.e. a plain object or an array
(`null` has `typeof 'object'` but is falsy). -/
def isMergeableObject : Json → Bool
  | .obj _ => true
  | .arr _ => true
  | _ => false

mutual

/-- `mergeTranslations(existing, translated)` from the auto-translation
tool: start from `{...translated}` and overwrite with the entries of
`existing`, recursing when both sides hold an object at the same key.
`Object.entries` of a non-object `existing` is empty (all call sites pass
plain objects), leaving `{...translated}`. -/
def mergeTranslations (existing translated : Json) : Json :=
  match existing with
  | .obj fs => .obj (mergeFieldsInto fs (spreadFields translated))
  | _ => .obj (spreadFields translated)

/-- The `for (const [key, value] of Object.entries(existing))` loop of
`mergeTranslations`, acting on the accumulated `result` entry list. -/
def mergeFieldsInto : List (String × Json) → List (String × Json) → List (String × Json)
  | [], result => result
  | (key, value) :: rest, result =>
    match value with
    | .obj vfs =>
      (match lookupKey result key with
       | some r =>
         if isMergeableObject r then
           mergeFieldsInto rest (setKey result key (mergeTranslations (.obj vfs) r))
         else
           mergeFieldsInto rest (setKey result key (.obj vfs))
       | none => mergeFieldsInto rest (setKey result key (.obj vfs)))
    | _ => mergeFieldsInto rest (setKey result key value)

end

/-- Dotted-path lookup in a JSON tree, used to state what "the object holds
this string at this path" means: descend through object fields along the
path. -/
def getPath : Json → List String → Option Json
  | j, [] => some j
  | .obj fs, k :: ks =>
    (match lookupKey fs k with
     | some v => getPath v ks
     | none => none)
  | _, _ :: _ => none

/-- A list of keys with no duplicates (what JS object semantics guarantee
for `Object.entries` of any real object). -/
def keysDistinct : List String → Bool
  | [] => true
  | k :: rest => (!(rest.contains k)) && keysDistinct rest

mutual

/-- Well-formedness of a `Json` value as a model of a real JS value: every
object's keys are pairwise distinct (guaranteed for anything produced by
`JSON.parse`). -/
def wfJson : Json → Bool
  | .obj fs => keysDistinct (fs.map Prod.fst) && wfFieldsJson fs
  | .arr xs => wfElemsJson xs
  | _ => true

/-- `wfJson` for each field value of an object. -/
def wfFieldsJson : List (String × Json) → Bool
  | [] => true
  | (_, v) :: rest => wfJson v && wfFieldsJson rest

/-- `wfJson` for each element of an array. -/
def wfElemsJson : List Json → Bool
  | [] => true
  | v :: rest => wfJson v && wfElemsJson rest

end

/-!
## Demo page (`i18n-utils.ts`, Demo component): `parseCsvLightCurve`
-/

/-- `String.prototype.split(/\r?\n/)` char by char: `'\n'` ends a line and
consumes at most one `'\r'` immediately before it. -/
def splitNewlineAux : List Char → List Char → List String
  | [], acc => [String.mk acc.reverse]
  | '\n' :: rest, acc =>
    let acc' := match acc with
      | '\r' :: a => a
      | a => a
    String.mk acc'.reverse :: splitNewlineAux rest []
  | c :: rest, acc => splitNewlineAux rest (c :: acc)

/-- `text.split(/\r?\n/)`. -/
def jsSplitLines (s : String) : List String := splitNewlineAux s.toList []

/-- `String.prototype.trim()`: drop leading and trailing whitespace.
(`Char.isWhitespace` covers space, tab, CR, LF; the further Unicode space
characters JS trims do not occur in the modelled inputs.) -/
def jsTrim (s : String) : String :=
  String.mk (((s.toList.dropWhile Char.isWhitespace).reverse.dropWhile Char.isWhitespace).reverse)

/-- The non-empty lines of the input:
`text.split(/\r?\n/).filter((l) => l.trim().length > 0)`. -/
def nonEmptyLines (s : String) : List String :=
  (jsSplitLines s).filter (fun l => 0 < (jsTrim l).length)

/-- ASCII lower-casing of one character, as `String.prototype.toLowerCase`
acts on the ASCII range (the only characters the header test looks for). -/
def lowerChar (c : Char) : Char :=
  if 'A' ≤ c ∧ c ≤ 'Z' then Char.ofNat (c.toNat + 32) else c

/-- `line.toLowerCase()` on ASCII text. -/
def jsToLower (s : String) : String := String.mk (s.toList.map lowerChar)

/-- Does `needle` start `hay`? -/
def startsWithChars : List Char → List Char → Bool
  | [], _ => true
  | _ :: _, [] => false
  | a :: as, b :: bs => a = b && startsWithChars as bs

/-- Does `needle` occur contiguously inside `hay`?  Models
`String.prototype.includes`. -/
def isInfixOfChars (needle : List Char) : List Char → Bool
  | [] => startsWithChars needle []
  | c :: rest => startsWithChars needle (c :: rest) || isInfixOfChars needle rest

/-- `s.includes(sub)`. -/
def jsIncludes (s sub : String) : Bool := isInfixOfChars sub.toList s.toList

/-- The header test of `parseCsvLightCurve`:
`maybeHeader.includes("time") && maybeHeader.includes("flux")` on
`lines[0].toLowerCase()`. -/
def isHeaderLine (l : String) : Bool :=
  let maybeHeader := jsToLower l
  jsIncludes maybeHeader "time" && jsIncludes maybeHeader "flux"

/-- `line.split(/,|\t|\s+/)` char by char, in regex alternation order: a
comma or a lone tab is a single separator; any other whitespace character
starts a greedy `\s+` separator run which swallows every following
whitespace character (tabs included).  The `inWs` flag records being inside
such a run, so the traversal consumes one character per step. -/
def splitSepAux : List Char → List Char → Bool → List (List Char)
  | [], acc, _ => [acc.reverse]
  | c :: rest, acc, inWs =>
    if inWs && c.isWhitespace then splitSepAux rest acc inWs
    else if c = ',' then acc.reverse :: splitSepAux rest [] false
    else if c = '\t' then acc.reverse :: splitSepAux rest [] false
    else if c.isWhitespace then acc.reverse :: splitSepAux rest [] true
    else splitSepAux rest (c :: acc) false

/-- `line.split(/,|\t|\s+/).filter(Boolean)`: the non-empty fields of a CSV
line. -/
def csvParts (line : String) : List String :=
  ((splitSepAux line.toList [] false).map String.mk).filter (fun p => !(p = ""))

/-- Leading decimal digits of a character list: value, digit count and the
remaining characters. -/
def takeDigits : List Char → Nat × Nat × List Char
  | [] => (0, 0, [])
  | c :: rest =>
    if c.isDigit then
      let (v, n, r) := takeDigits rest
      ((c.toNat - 48) * 10 ^ n + v, n + 1, r)
    else (0, 0, c :: rest)

/-- Exponent suffix of a JS numeric literal (`e`/`E`, optional sign,
digits); anything else trailing makes the whole literal `NaN`. -/
def parseExpSuffix (base : ℚ) : List Char → Option ℚ
  | [] => some base
  | e :: rest =>
    if e = 'e' ∨ e = 'E' then
      let (sgn, rest2) : ℤ × List Char :=
        match rest with
        | '+' :: r => (1, r)
        | '-' :: r => (-1, r)
        | r => (1, r)
      let (ev, en, rest3) := takeDigits rest2
      if en = 0 ∨ !(rest3 = []) then none
      else some (base * (10 : ℚ) ^ (sgn * (ev : ℤ)))
    else none

/-- An unsigned JS decimal literal: digits, optional fractional part,
optional exponent.  `none` models a `NaN` result. -/
def parseUnsignedNumber (cs : List Char) : Option ℚ :=
  let (ip, ipLen, rest1) := takeDigits cs
  match rest1 with
  | '.' :: rest2 =>
    let (fp, fpLen, rest3) := takeDigits rest2
    if ipLen = 0 ∧ fpLen = 0 then none
    else parseExpSuffix ((ip : ℚ) + (fp : ℚ) / 10 ^ fpLen) rest3
  | _ => if ipLen = 0 then none else parseExpSuffix (ip : ℚ) rest1

/-- An unsigned literal body, where `Infinity` is recognised but is not a
finite number (`none`). -/
def parseNumberBody (cs : List Char) : Option ℚ :=
  if cs = "Infinity".toList then none else parseUnsignedNumber cs

/-- `Number(s)` restricted to finite results: `some q` when `Number(s)` is
the finite number `q`, `none` when it is `NaN` or `±Infinity` (so
`Number.isFinite(Number(s))` is exactly `(jsNumber s).isSome`).  The
whitespace trim, the empty-string-to-`0` rule, the optional sign and the
decimal/scientific forms are modelled; the hex/octal/binary literal forms
`Number` also accepts are left out — none of the properties proved below
depend on which strings parse. -/
def jsNumber (s : String) : Option ℚ :=
  let t := jsTrim s
  if t = "" then some 0
  else
    match t.toList with
    | '+' :: rest => parseNumberBody rest
    | '-' :: rest => (parseNumberBody rest).map (fun q => -q)
    | cs => parseNumberBody cs

/-- A parsed light-curve sample: `{ time, flux }` with both components
finite numbers. -/
structure LightCurvePoint where
  time : ℚ
  flux : ℚ
deriving Repr

/-- The row loop of `parseCsvLightCurve` (`for (let i = startIndex; ...)`):
split each line, keep it only when it has at least two fields and both
parse to finite numbers. -/
def parseCsvRows : List String → List LightCurvePoint
  | [] => []
  | line :: rest =>
    match csvParts line with
    | p0 :: p1 :: _ =>
      (match jsNumber p0, jsNumber p1 with
       | some time, some flux => ⟨time, flux⟩ :: parseCsvRows rest
       | _, _ => parseCsvRows rest)
    | _ => parseCsvRows rest

/-- `parseCsvLightCurve(text)` from the Demo component: filter the
non-empty lines, skip the first when it looks like a `time`/`flux` header,
then run the row loop. -/
def parseCsvLightCurve (text : String) : List LightCurvePoint :=
  match nonEmptyLines text with
  | [] => []
  | l0 :: rest =>
    if isHeaderLine l0 then parseCsvRows rest else parseCsvRows (l0 :: rest)

/-!
## Demo page: `handleRunJob` progress simulation and mock results
-/

/-- The per-tick increment of `handleRunJob`:
`Math.max(1, Math.round(epochs[0] / 5))`.  The round result is a
non-negative integer for the non-negative epochs the slider produces, so
the `Int.toNat` conversion is exact. -/
def epochIncrement (epochs : ℕ) : ℕ :=
  (max 1 (jsMathRound ((epochs : ℚ) / 5))).toNat

/-- The Demo component state touched by the `setInterval` callback of
`handleRunJob`: the progress counter, the `jobRunning` flag and whether
`clearInterval` has been called. -/
structure DemoJobState where
  progress : ℕ
  jobRunning : Bool
  intervalCleared : Bool
deriving Repr

/-- One interval tick of `handleRunJob`: `current += inc`; when
`current >= 100` the counter is capped at `100`, the interval is cleared,
the mock metrics and results are published (modelled separately by
`demoMetrics` / `demoSpreadUpdate`) and `jobRunning` is set to `false`;
finally `setJobProgress(current)`. -/
def demoTick (inc : ℕ) (s : DemoJobState) : DemoJobState :=
  let current := s.progress + inc
  if 100 ≤ current then
    { progress := 100, jobRunning := false, intervalCleared := true }
  else
    { s with progress := current }

/-- The state after `n` ticks of `handleRunJob`, starting from the state
the handler sets up (`setJobProgress(0)`, `setJobRunning(true)`, interval
armed). -/
def demoRun (inc : ℕ) : ℕ → DemoJobState
  | 0 => { progress := 0, jobRunning := true, intervalCleared := false }
  | n + 1 => demoTick inc (demoRun inc n)

/-- A record of the Demo page's `mockResults` module constant, and of the
entries of `jobResults`. -/
structure DemoResult where
  id : String
  probability : ℚ
  status : String
  period : Option ℚ
  depth : Option ℚ
deriving Repr

/-- The `mockResults` module-level constant of the Demo component. -/
def mockResults : List DemoResult :=
  [⟨"KIC-12345678", 0.94, "planet", some 3.2, some 0.012⟩,
   ⟨"TIC-87654321", 0.02, "no_planet", none, none⟩,
   ⟨"KIC-11223344", 0.78, "candidate", some 12.7, some 0.008⟩]

/-- The probability update applied to each record when a job finishes:
`Math.max(0, Math.min(1, r.probability + (learningRate[0] - 0.001) * 5))`. -/
def demoProbability (lr p : ℚ) : ℚ :=
  max 0 (min 1 (p + (lr - 0.001) * 5))

/-- `{...r, probability: ...}`: a fresh record copying every field of `r`
except the updated probability. -/
def demoSpreadUpdate (lr : ℚ) (r : DemoResult) : DemoResult :=
  { r with probability := demoProbability lr r.probability }

/-!
For the frame claim about `mockResults` the JS reference/value distinction
matters, so records live in a small heap: a heap is the list of allocated
records, an address is an index into it, and allocation appends.  The
module constant `mockResults` occupies addresses `0..2` of the initial
heap, and `jobResults` is built by `mockResults.map(r => ({...r, ...}))`,
i.e. by reading each address and allocating a fresh copy.
-/

/-- Allocate a record on the heap: the new record is appended and its
address returned. -/
def heapAlloc (h : List DemoResult) (r : DemoResult) :
    List DemoResult × ℕ :=
  (h ++ [r], h.length)

/-- `mockResults.map(r => ({...r, probability: ...}))` over the heap: read
each address, allocate a fresh spread copy, and collect the new addresses.
`none` would signal a dangling address; the Demo page only ever maps over
the valid addresses of `mockResults`. -/
def allocMapProbability (lr : ℚ) (h : List DemoResult) :
    List ℕ → Option (List DemoResult × List ℕ)
  | [] => some (h, [])
  | a :: rest =>
    match h.get? a with
    | none => none
    | some r =>
      let (h₁, a₁) := heapAlloc h (demoSpreadUpdate lr r)
      match allocMapProbability lr h₁ rest with
      | none => none
      | some (h₂, rest₁) => some (h₂, a₁ :: rest₁)

/-- The heap at module load: the three `mockResults` records. -/
def initialDemoHeap : List DemoResult := mockResults

/-- The addresses the `mockResults` array holds. -/
def mockResultsRefs : List ℕ := [0, 1, 2]

/-!
## Demo page: the mock metrics published on the final tick

`Math.log10` forces these definitions into `ℝ`.
-/

/-- `Number(x.toFixed(3))` for the non-negative metric values: round to
three decimal places, half away from zero. -/
noncomputable def jsToFixed3 (x : ℝ) : ℝ := (⌊x * 1000 + 1/2⌋ : ℝ) / 1000

/-- The raw mock accuracy of `handleRunJob`:
`Math.max(0.7, Math.min(0.99, 0.75 + Math.log10(1 + learningRate[0]) + epochs[0] * 0.002))`. -/
noncomputable def demoAccuracy (lr epochs : ℝ) : ℝ :=
  max 0.7 (min 0.99 (0.75 + Real.logb 10 (1 + lr) + epochs * 0.002))

/-- The raw mock precision: `Math.max(0.65, Math.min(0.98, acc - 0.02))`. -/
noncomputable def demoPrecision (lr epochs : ℝ) : ℝ :=
  max 0.65 (min 0.98 (demoAccuracy lr epochs - 0.02))

/-- The raw mock recall: `Math.max(0.6, Math.min(0.97, acc - 0.03))`. -/
noncomputable def demoRecall (lr epochs : ℝ) : ℝ :=
  max 0.6 (min 0.97 (demoAccuracy lr epochs - 0.03))

/-- The metrics record published by `setJobMetrics`: each raw value through
`Number(·.toFixed(3))`. -/
noncomputable def demoMetrics (lr epochs : ℝ) : ℝ × ℝ × ℝ :=
  (jsToFixed3 (demoAccuracy lr epochs),
   jsToFixed3 (demoPrecision lr epochs),
   jsToFixed3 (demoRecall lr epochs))

/-!
## Quantum and Adversarial pages: fetch handlers

The handlers are modelled by the sequence of UI effects they perform; a
`FetchOutcome` abstracts what the single `fetch` call did.
-/

/-- What a `fetch` call did: resolved with `response.ok` and a parsed JSON
body; resolved `ok` but `response.json()` threw; resolved non-ok; or
rejected (network error).  The `String` payloads carry `statusText` /
`Error.message` (with `none` for a thrown non-`Error` value). -/
inductive FetchOutcome where
  | ok (data : Json)
  | okBadJson (msg : Option String)
  | notOk (statusText : String)
  | threw (msg : Option String)

/-- An outcome the claims call a failure: the request threw or returned a
non-ok response (including an ok response whose body failed to parse). -/
def isFailureOutcome : FetchOutcome → Bool
  | .ok _ => false
  | _ => true

/-- The UI effects the Quantum/Adversarial handlers perform, in order. -/
inductive UIEffect where
  | setIsProcessing (b : Bool)
  | setProgress (value : ℚ)
  | fetchRequest (url : String)
  | setResults (v : Json)

/-- The page state those effects act on. -/
structure PageUIState where
  isProcessing : Bool
  progress : ℚ
  results : Option Json

/-- Apply one effect to the page state (a `fetch` request does not itself
change it). -/
def applyEffect (s : PageUIState) : UIEffect → PageUIState
  | .setIsProcessing b => { s with isProcessing := b }
  | .setProgress v => { s with progress := v }
  | .fetchRequest _ => s
  | .setResults v => { s with results := some v }

/-- Replay a list of effects over a state. -/
def replayEffects (s : PageUIState) (es : List UIEffect) : PageUIState :=
  es.foldl applyEffect s

/-- How many HTTP requests a list of effects issues. -/
def countFetchRequests (es : List UIEffect) : ℕ :=
  es.countP (fun e => match e with
    | .fetchRequest _ => true
    | _ => false)

/-- The hardcoded mock object the Quantum page falls back to (it quotes the
live `nQubits` slider value and the parsed `featureDimension`). -/
def quantumMockResults (nQubits : ℕ) (featureDimension : ℤ) : Json :=
  .obj
    [("predictions", .arr [.num 2, .num 0, .num 1]),
     ("probabilities", .arr
       [.arr [.num 0.1, .num 0.2, .num 0.7],
        .arr [.num 0.8, .num 0.15, .num 0.05],
        .arr [.num 0.2, .num 0.6, .num 0.2]]),
     ("quantum_circuit_info", .obj
       [("n_qubits", .num nQubits),
        ("feature_dimension", .num featureDimension),
        ("circuit_depth", .num 4),
        ("gate_count", .num 12),
        ("simulation_method", .str "statevector")]),
     ("processing_time", .num 2.3)]

/-- `handleQuantumSimulation` as its effect sequence: mark processing,
run the 21-step progress animation (`steps = 20`), issue the one POST to
`/api/qsvc`, publish either the parsed body or the mock fallback, and mark
processing done. -/
def handleQuantumSimulation (nQubits : ℕ) (featureDimension : ℤ)
    (outcome : FetchOutcome) : List UIEffect :=
  [.setIsProcessing true, .setProgress 0]
  ++ ((List.range 21).map (fun i => .setProgress ((i : ℚ) / 20 * 100)))
  ++ [.fetchRequest "/api/qsvc"]
  ++ (match outcome with
      | .ok data => [.setResults data]
      | .okBadJson _ => [.setResults (quantumMockResults nQubits featureDimension)]
      | .notOk _ => [.setResults (quantumMockResults nQubits featureDimension)]
      | .threw _ => [.setResults (quantumMockResults nQubits featureDimension)])
  ++ [.setIsProcessing false]

/-- The hardcoded mock object the Adversarial page falls back to (a closed
literal: it quotes no component state). -/
def adversarialMockResults : Json :=
  .obj
    [("original_predictions", .arr [.num 2, .num 0, .num 1]),
     ("adversarial_predictions", .arr [.num 0, .num 2, .num 0]),
     ("x_num_adv", .arr
       [.arr [.num 0.15, .num 0.18, .num 0.25, .num 0.38, .num 0.45]]),
     ("x_cat_adv", .arr [.arr [.num 1, .num 0]]),
     ("success_rate", .num 0.67),
     ("perturbation_stats", .obj
       [("l0_norm", .num 2.3),
        ("l2_norm", .num 0.12),
        ("linf_norm", .num 0.08)]),
     ("attack_time", .num 1.8)]

/-- `handleAdversarialAttack` as its effect sequence: mark processing, run
the 16-step progress animation (`steps = 15`), issue the one POST to
`/api/adversarial`, publish either the parsed body or the mock fallback,
and mark processing done. -/
def handleAdversarialAttack (outcome : FetchOutcome) : List UIEffect :=
  [.setIsProcessing true, .setProgress 0]
  ++ ((List.range 16).map (fun i => .setProgress ((i : ℚ) / 15 * 100)))
  ++ [.fetchRequest "/api/adversarial"]
  ++ (match outcome with
      | .ok data => [.setResults data]
      | .okBadJson _ => [.setResults adversarialMockResults]
      | .notOk _ => [.setResults adversarialMockResults]
      | .threw _ => [.setResults adversarialMockResults])
  ++ [.setIsProcessing false]

/-!
## DataUpload page: `uploadAndAnalyze`
-/

/-- `err instanceof Error ? err.message : 'Unknown error occurred'`. -/
def jsCaughtMessage : Option String → String
  | some m => m
  | none => "Unknown error occurred"

/-- The DataUpload component state `uploadAndAnalyze` touches.  (The
simulated-progress interval is elided: it only steps `uploadProgress`
towards 90 while the upload request is in flight and clears itself.) -/
structure DataUploadState where
  isUploading : Bool
  isAnalyzing : Bool
  uploadProgress : ℚ
  error : Option String
  dataProfile : Option Json
  actionPlan : Option Json
  activeTab : String

/-- `uploadAndAnalyze(file)` as a state transformer, given what each of its
two requests did (`analysis` is only reached when `upload` succeeded).

The body mirrors the source: the entry block sets the four states; a non-ok
upload or analysis response is turned into a thrown
`Upload failed: ...` / `Analysis failed: ...` error; every thrown error is
caught and stored via `setError`; on full success the profile and action
plan are read off the analysis body and the profile tab is opened; the
`finally` block clears both busy flags. -/
def uploadAndAnalyze (s : DataUploadState) (upload analysis : FetchOutcome) :
    DataUploadState :=
  let s0 := { s with
    isUploading := true, isAnalyzing := false, uploadProgress := 0,
    error := none }
  let s1 :=
    match upload with
    | .threw m => { s0 with error := some (jsCaughtMessage m) }
    | .notOk statusText =>
      { s0 with uploadProgress := 100,
                error := some ("Upload failed: " ++ statusText) }
    | .okBadJson m =>
      { s0 with uploadProgress := 100, error := some (jsCaughtMessage m) }
    | .ok _ =>
      let s2 := { s0 with uploadProgress := 100,
                          isUploading := false, isAnalyzing := true }
      match analysis with
      | .threw m => { s2 with error := some (jsCaughtMessage m) }
      | .notOk statusText =>
        { s2 with error := some ("Analysis failed: " ++ statusText) }
      | .okBadJson m => { s2 with error := some (jsCaughtMessage m) }
      | .ok analysisResult =>
        { s2 with dataProfile := jsIndex analysisResult "profile",
                  actionPlan := jsIndex analysisResult "action_plan",
                  activeTab := "profile" }
  { s1 with isUploading := false, isAnalyzing := false }

/-!
## Theorems
-/

/-- Claim C4: for every locale string, `getTextDirection` returns `'rtl'`
exactly when the locale is one of `'ar'`, `'he'`, `'fa'`, `'ur'`, and
returns `'ltr'` otherwise; in particular it returns `'rtl'` for Arabic
(`'ar'`) and `'ltr'` for `'en'` and `'es'`. -/
theorem getTextDirection_rtl_iff (locale : String) :
    (getTextDirection locale = "rtl" ↔
      (locale = "ar" ∨ locale = "he" ∨ locale = "fa" ∨ locale = "ur")) ∧
    (getTextDirection locale = "ltr" ↔
      ¬(locale = "ar" ∨ locale = "he" ∨ locale = "fa" ∨ locale = "ur")) ∧
    getTextDirection "ar" = "rtl" ∧
    getTextDirection "en" = "ltr" ∧
    getTextDirection "es" = "ltr" := by
  have hmem : isRTL locale = true ↔
      (locale = "ar" ∨ locale = "he" ∨ locale = "fa" ∨ locale = "ur") := by
    simp [isRTL, rtlLocales, List.contains, List.elem_eq_mem]
  refine ⟨?_, ?_, by decide, by decide, by decide⟩ <;>
    cases hr : isRTL locale <;>
      simp [getTextDirection, hr, ← hmem]

/-- Claim C5: in the Quantum and Adversarial pages, whenever the POST to
`/api/qsvc` (resp. `/api/adversarial`) throws or returns a non-ok
response, the handler sets `results` to the fixed hardcoded mock object,
issues exactly one request (no retry), and ends with `isProcessing`
false. -/
theorem quantum_adversarial_failure_fallback
    (nQubits : ℕ) (featureDimension : ℤ) (outcome : FetchOutcome)
    (s : PageUIState) (hfail : isFailureOutcome outcome = true) :
    (countFetchRequests (handleQuantumSimulation nQubits featureDimension outcome) = 1 ∧
     (replayEffects s (handleQuantumSimulation nQubits featureDimension outcome)).results
       = some (quantumMockResults nQubits featureDimension) ∧
     (replayEffects s (handleQuantumSimulation nQubits featureDimension outcome)).isProcessing
       = false) ∧
    (countFetchRequests (handleAdversarialAttack outcome) = 1 ∧
     (replayEffects s (handleAdversarialAttack outcome)).results
       = some adversarialMockResults ∧
     (replayEffects s (handleAdversarialAttack outcome)).isProcessing = false) := by
  cases outcome with
  | ok data => simp [isFailureOutcome] at hfail
  | okBadJson m => exact ⟨⟨rfl, rfl, rfl⟩, rfl, rfl, rfl⟩
  | notOk st => exact ⟨⟨rfl, rfl, rfl⟩, rfl, rfl, rfl⟩
  | threw m => exact ⟨⟨rfl, rfl, rfl⟩, rfl, rfl, rfl⟩

/-- Witness for C5 at a concrete failed request (`500`-style non-ok
response, `nQubits = 4`, `featureDimension = 2`, blank initial state). -/
theorem quantum_adversarial_failure_fallback_witness :
    isFailureOutcome (.notOk "Internal Server Error") = true ∧
    ((countFetchRequests
        (handleQuantumSimulation 4 2 (.notOk "Internal Server Error")) = 1 ∧
      (replayEffects ⟨false, 0, none⟩
        (handleQuantumSimulation 4 2 (.notOk "Internal Server Error"))).results
        = some (quantumMockResults 4 2) ∧
      (replayEffects ⟨false, 0, none⟩
        (handleQuantumSimulation 4 2 (.notOk "Internal Server Error"))).isProcessing
        = false) ∧
     (countFetchRequests (handleAdversarialAttack (.notOk "Internal Server Error")) = 1 ∧
      (replayEffects ⟨false, 0, none⟩
        (handleAdversarialAttack (.notOk "Internal Server Error"))).results
        = some adversarialMockResults ∧
      (replayEffects ⟨false, 0, none⟩
        (handleAdversarialAttack (.notOk "Internal Server Error"))).isProcessing = false)) :=
  ⟨rfl, quantum_adversarial_failure_fallback 4 2 (.notOk "Internal Server Error")
    ⟨false, 0, none⟩ rfl⟩

/-- Claim C6: if the upload request or the profile request fails (throws
or returns non-ok), `uploadAndAnalyze` sets the error state to a message,
leaves `dataProfile` and `actionPlan` unchanged (no mock substitution),
and both `isUploading` and `isAnalyzing` are false afterwards. -/
theorem uploadAndAnalyze_failure_sets_error
    (s : DataUploadState) (upload analysis : FetchOutcome)
    (hfail : isFailureOutcome upload = true ∨
      (∃ d, upload = .ok d ∧ isFailureOutcome analysis = true)) :
    (∃ m, (uploadAndAnalyze s upload analysis).error = some m) ∧
    (uploadAndAnalyze s upload analysis).dataProfile = s.dataProfile ∧
    (uploadAndAnalyze s upload analysis).actionPlan = s.actionPlan ∧
    (uploadAndAnalyze s upload analysis).isUploading = false ∧
    (uploadAndAnalyze s upload analysis).isAnalyzing = false := by
  cases upload with
  | ok d =>
    rcases hfail with hf | ⟨d', hd, hf2⟩
    · simp [isFailureOutcome] at hf
    · cases analysis with
      | ok a => simp [isFailureOutcome] at hf2
      | okBadJson m => exact ⟨⟨_, rfl⟩, rfl, rfl, rfl, rfl⟩
      | notOk st => exact ⟨⟨_, rfl⟩, rfl, rfl, rfl, rfl⟩
      | threw m => exact ⟨⟨_, rfl⟩, rfl, rfl, rfl, rfl⟩
  | okBadJson m => exact ⟨⟨_, rfl⟩, rfl, rfl, rfl, rfl⟩
  | notOk st => exact ⟨⟨_, rfl⟩, rfl, rfl, rfl, rfl⟩
  | threw m => exact ⟨⟨_, rfl⟩, rfl, rfl, rfl, rfl⟩

/-- Witness for C6: the profile request fails with a non-ok response after
a successful upload, starting from a state that already holds a profile. -/
theorem uploadAndAnalyze_failure_sets_error_witness :
    (isFailureOutcome (FetchOutcome.ok (.obj [("dataset_id", .str "d1")])) = true ∨
     (∃ d, FetchOutcome.ok (.obj [("dataset_id", .str "d1")]) = FetchOutcome.ok d ∧
        isFailureOutcome (.notOk "Not Found") = true)) ∧
    ((∃ m, (uploadAndAnalyze
        ⟨false, false, 0, none, some (.str "oldProfile"), some (.str "oldPlan"), "upload"⟩
        (.ok (.obj [("dataset_id", .str "d1")])) (.notOk "Not Found")).error = some m) ∧
     (uploadAndAnalyze
        ⟨false, false, 0, none, some (.str "oldProfile"), some (.str "oldPlan"), "upload"⟩
        (.ok (.obj [("dataset_id", .str "d1")])) (.notOk "Not Found")).dataProfile
       = some (.str "oldProfile") ∧
     (uploadAndAnalyze
        ⟨false, false, 0, none, some (.str "oldProfile"), some (.str "oldPlan"), "upload"⟩
        (.ok (.obj [("dataset_id", .str "d1")])) (.notOk "Not Found")).actionPlan
       = some (.str "oldPlan") ∧
     (uploadAndAnalyze
        ⟨false, false, 0, none, some (.str "oldProfile"), some (.str "oldPlan"), "upload"⟩
        (.ok (.obj [("dataset_id", .str "d1")])) (.notOk "Not Found")).isUploading = false ∧
     (uploadAndAnalyze
        ⟨false, false, 0, none, some (.str "oldProfile"), some (.str "oldPlan"), "upload"⟩
        (.ok (.obj [("dataset_id", .str "d1")])) (.notOk "Not Found")).isAnalyzing = false) :=
  ⟨Or.inr ⟨_, rfl, rfl⟩,
   uploadAndAnalyze_failure_sets_error
     ⟨false, false, 0, none, some (.str "oldProfile"), some (.str "oldPlan"), "upload"⟩
     (.ok (.obj [("dataset_id", .str "d1")])) (.notOk "Not Found")
     (Or.inr ⟨_, rfl, rfl⟩)⟩

/-- The progress counter after `n` ticks is `min 100 (n * inc)`. -/
theorem demoRun_progress (inc : ℕ) : ∀ n, (demoRun inc n).progress = min 100 (n * inc) := by
  intro n
  induction n with
  | zero => simp [demoRun]
  | succ n ih =>
    have hsm : (n + 1) * inc = n * inc + inc := by ring
    simp only [demoRun, demoTick, ih, hsm]
    split <;> simp <;> omega

/-- Claim C7: for every epochs value between 1 and 50, each tick of the
simulated training run increases the progress counter by at least 1,
progress never exceeds 100, and after at most 100 ticks progress is
exactly 100 with the interval cleared and `jobRunning` false. -/
theorem handleRunJob_terminates (epochs : ℕ)
    (_h1 : 1 ≤ epochs) (_h50 : epochs ≤ 50) :
    1 ≤ epochIncrement epochs ∧
    (∀ s : DemoJobState, s.progress < 100 →
      s.progress + 1 ≤ (demoTick (epochIncrement epochs) s).progress) ∧
    (∀ n, (demoRun (epochIncrement epochs) n).progress ≤ 100) ∧
    demoRun (epochIncrement epochs) 100
      = { progress := 100, jobRunning := false, intervalCleared := true } := by
  have hinc : 1 ≤ epochIncrement epochs := by
    have h : (1 : ℤ) ≤ max 1 (jsMathRound ((epochs : ℚ) / 5)) := le_max_left _ _
    exact Int.toNat_le_toNat h
  refine ⟨hinc, ?_, ?_, ?_⟩
  · intro s hs
    simp only [demoTick]
    split <;> simp <;> omega
  · intro n
    simp [demoRun_progress]
  · have h99 := demoRun_progress (epochIncrement epochs) 99
    have hcond : 100 ≤ (demoRun (epochIncrement epochs) 99).progress
        + epochIncrement epochs := by
      rw [h99]; omega
    show demoTick (epochIncrement epochs) (demoRun (epochIncrement epochs) 99) = _
    simp only [demoTick]
    rw [if_pos hcond]

/-- Witness for C7 at the default `epochs = 10` slider value. -/
theorem handleRunJob_terminates_witness :
    (1 ≤ 10 ∧ 10 ≤ 50) ∧
    (1 ≤ epochIncrement 10 ∧
     (∀ s : DemoJobState, s.progress < 100 →
       s.progress + 1 ≤ (demoTick (epochIncrement 10) s).progress) ∧
     (∀ n, (demoRun (epochIncrement 10) n).progress ≤ 100) ∧
     demoRun (epochIncrement 10) 100
       = { progress := 100, jobRunning := false, intervalCleared := true }) :=
  ⟨⟨by decide, by decide⟩, handleRunJob_terminates 10 (by decide) (by decide)⟩

/-- Allocation-only maps never disturb existing heap cells: whatever
addresses `allocMapProbability` is given, every address already allocated
reads the same record afterwards. -/
theorem allocMapProbability_frame (lr : ℚ) :
    ∀ (addrs : List ℕ) (h h' : List DemoResult) (out : List ℕ),
      allocMapProbability lr h addrs = some (h', out) →
      ∀ i, i < h.length → h'.get? i = h.get? i := by
  intro addrs
  induction addrs with
  | nil =>
    intro h h' out heq i hi
    simp only [allocMapProbability, Option.some.injEq, Prod.mk.injEq] at heq
    rw [heq.1]
  | cons a rest ih =>
    intro h h' out heq i hi
    simp only [allocMapProbability] at heq
    cases hget : h.get? a with
    | none => rw [hget] at heq; exact absurd heq (by simp)
    | some r =>
      rw [hget] at heq
      simp only [heapAlloc] at heq
      cases hrec : allocMapProbability lr (h ++ [demoSpreadUpdate lr r]) rest with
      | none => rw [hrec] at heq; exact absurd heq (by simp)
      | some p =>
        rw [hrec] at heq
        simp only [Option.some.injEq, Prod.mk.injEq] at heq
        have hframe := ih (h ++ [demoSpreadUpdate lr r]) p.1 p.2 (by simp [hrec]) i
          (by simp; omega)
        rw [heq.1] at hframe
        rw [hframe, List.get?_eq_getElem?, List.get?_eq_getElem?,
          List.getElem?_append_left hi]

/-- Claim C8: running a simulated training job never mutates the
module-level `mockResults`: building `jobResults` from per-record spread
copies allocates fresh records, and afterwards the `mockResults` addresses
still hold the original three records with their original probabilities
0.94, 0.02 and 0.78. -/
theorem handleRunJob_preserves_mockResults (lr : ℚ) :
    ∃ (h' : List DemoResult) (jobRefs : List ℕ),
      allocMapProbability lr initialDemoHeap mockResultsRefs = some (h', jobRefs) ∧
      mockResultsRefs.map (fun a => h'.get? a) = mockResults.map some ∧
      mockResults.map DemoResult.probability = [0.94, 0.02, 0.78] := by
  exact ⟨_, _, rfl, rfl, rfl⟩

/-- Claim C1 as stated is false: with `en = {"a": "x"}` and the locale file
`{"a": ""}`, looking the leaf key `"a"` up in the locale yields the value
`""` (not "no value"), yet the script reports `"a"` in `missing_keys`,
because its test is JS falsiness, not absence. -/
theorem missingKeys_counterexample :
    ¬ (∀ (en locale : Json) (k : String), k ∈ deepKeys en →
        (k ∈ missingKeys en locale ↔ getValueByPath locale k = none)) := by
  intro hcl
  have h := (hcl (Json.obj [("a", Json.str "x")]) (Json.obj [("a", Json.str "")]) "a"
      (by simp [deepKeys, deepKeysFields])).mp
      (by simp [missingKeys, deepKeys, deepKeysFields, getValueByPath, jsSplitDot,
        splitCharAux, jsIndex, lookupKey, isTruthyOpt, isTruthy])
  simp [getValueByPath, jsSplitDot, splitCharAux, jsIndex, lookupKey] at h

/-- Claim C1 (amended): a dotted-path leaf key of the English locale object
is reported in `missing_keys` exactly when looking that path up in the
locale object yields no value or a falsy value (`null`, `false`, `0` or the
empty string). -/
theorem missingKeys_mem_iff (en locale : Json) (k : String)
    (hk : k ∈ deepKeys en) :
    k ∈ missingKeys en locale ↔ isTruthyOpt (getValueByPath locale k) = false := by
  simp [missingKeys, List.mem_filter, hk]

/-- Witness for the amended C1 at `en = {"a": "x"}`, locale `{"a": ""}`,
key `"a"`. -/
theorem missingKeys_mem_iff_witness :
    ("a" ∈ deepKeys (Json.obj [("a", Json.str "x")])) ∧
    (("a" ∈ missingKeys (Json.obj [("a", Json.str "x")]) (Json.obj [("a", Json.str "")])) ↔
      isTruthyOpt (getValueByPath (Json.obj [("a", Json.str "")]) "a") = false) :=
  ⟨by simp [deepKeys, deepKeysFields],
   missingKeys_mem_iff _ _ "a" (by simp [deepKeys, deepKeysFields])⟩

/-- Claim C2 as stated is false: coverage is computed from the locale's own
key count, so a locale with more leaf keys than English exceeds 100.  With
`en = {"a": "x"}` and locale `{"a": "x", "b": "y"}` the reported coverage
percentage is 200. -/
theorem coveragePercentage_counterexample :
    ¬ (∀ en locale : Json, deepKeys en ≠ [] →
        (coveragePercentage en locale = roundedTo2dpSpec (coverageRatio en locale) ∧
         0 ≤ coveragePercentage en locale ∧
         coveragePercentage en locale ≤ 100)) := by
  intro hcl
  have h := hcl (Json.obj [("a", Json.str "x")])
      (Json.obj [("a", Json.str "x"), ("b", Json.str "y")])
      (by simp [deepKeys, deepKeysFields])
  have h200 : coveragePercentage (Json.obj [("a", Json.str "x")])
      (Json.obj [("a", Json.str "x"), ("b", Json.str "y")]) = 200 := by
    have hk : coverageRatio (Json.obj [("a", Json.str "x")])
        (Json.obj [("a", Json.str "x"), ("b", Json.str "y")]) = 200 := by
      simp [coverageRatio, deepKeys, deepKeysFields]
      norm_num
    rw [coveragePercentage, hk]
    norm_num [jsMathRound]
  rw [h200] at h
  norm_num at h

/-- Claim C2 (amended): `coverage_percentage` equals the locale-to-English
leaf-key-count ratio times 100 rounded to two decimal places; it is always
non-negative, and it lies between 0 and 100 whenever the locale has at most
as many leaf keys as English (a locale with extra keys pushes it above
100). -/
theorem coveragePercentage_formula_bounds (en locale : Json)
    (hen : deepKeys en ≠ []) :
    coveragePercentage en locale = roundedTo2dpSpec (coverageRatio en locale) ∧
    0 ≤ coveragePercentage en locale ∧
    ((deepKeys locale).length ≤ (deepKeys en).length →
      coveragePercentage en locale ≤ 100) := by
  have hn1 : 1 ≤ (deepKeys en).length := List.length_pos.mpr hen
  refine ⟨rfl, ?_, ?_⟩
  · have h0 : (0:ℚ) ≤ coverageRatio en locale * 100 + 1/2 := by
      unfold coverageRatio
      positivity
    have hfl := Int.floor_nonneg.mpr h0
    unfold coveragePercentage jsMathRound
    have : (0:ℚ) ≤ (⌊coverageRatio en locale * 100 + 1/2⌋ : ℚ) := by exact_mod_cast hfl
    linarith
  · intro hle
    have hn : (1:ℚ) ≤ ((deepKeys en).length : ℚ) := by exact_mod_cast hn1
    have hm : ((deepKeys locale).length : ℚ) ≤ ((deepKeys en).length : ℚ) := by
      exact_mod_cast hle
    have hratio : coverageRatio en locale ≤ 100 := by
      unfold coverageRatio
      have h1 : ((deepKeys locale).length : ℚ) / ((deepKeys en).length : ℚ) ≤ 1 := by
        rw [div_le_one (by linarith)]
        exact hm
      linarith
    have hx : coverageRatio en locale * 100 + 1/2 < ((10001 : ℤ) : ℚ) := by
      push_cast
      linarith
    have hfl : ⌊coverageRatio en locale * 100 + 1/2⌋ < 10001 := Int.floor_lt.mpr hx
    have hfl' : (⌊coverageRatio en locale * 100 + 1/2⌋ : ℚ) ≤ 10000 := by
      exact_mod_cast Int.lt_add_one_iff.mp hfl
    unfold coveragePercentage jsMathRound
    linarith

/-- Witness for the amended C2 at `en = {"a": "x"}` and the empty locale
object. -/
theorem coveragePercentage_formula_bounds_witness :
    deepKeys (Json.obj [("a", Json.str "x")]) ≠ [] ∧
    (coveragePercentage (Json.obj [("a", Json.str "x")]) (Json.obj [])
       = roundedTo2dpSpec (coverageRatio (Json.obj [("a", Json.str "x")]) (Json.obj [])) ∧
     0 ≤ coveragePercentage (Json.obj [("a", Json.str "x")]) (Json.obj []) ∧
     ((deepKeys (Json.obj [])).length ≤ (deepKeys (Json.obj [("a", Json.str "x")])).length →
       coveragePercentage (Json.obj [("a", Json.str "x")]) (Json.obj []) ≤ 100)) :=
  ⟨by simp [deepKeys, deepKeysFields],
   coveragePercentage_formula_bounds _ _ (by simp [deepKeys, deepKeysFields])⟩

/-- Looking up the key just set finds the new value. -/
theorem lookupKey_setKey_self (l : List (String × Json)) (k : String) (v : Json) :
    lookupKey (setKey l k v) k = some v := by
  induction l with
  | nil => simp [setKey, lookupKey]
  | cons hd rest ih =>
    obtain ⟨k', v'⟩ := hd
    by_cases hk : k' = k
    · subst hk
      simp [setKey, lookupKey]
    · simp [setKey, lookupKey, hk, ih]

/-- Setting one key does not change the value seen at any other key. -/
theorem lookupKey_setKey_ne (l : List (String × Json)) (k k' : String) (v : Json)
    (hne : k' ≠ k) :
    lookupKey (setKey l k v) k' = lookupKey l k' := by
  induction l with
  | nil => simp [setKey, lookupKey, hne.symm]
  | cons hd rest ih =>
    obtain ⟨k₀, v₀⟩ := hd
    by_cases hk : k₀ = k
    · subst hk
      simp [setKey, lookupKey, hne, hne.symm]
    · by_cases hk' : k₀ = k'
      · subst hk'
        simp [setKey, lookupKey, hk]
      · simp [setKey, lookupKey, hk, hk', ih]

/-- The merge loop only writes the keys of `existing`: a key not among them
reads the same value in the result as in the accumulator. -/
theorem lookupKey_mergeFieldsInto_of_notMem :
    ∀ (fs acc : List (String × Json)) (k : String),
      (fs.map Prod.fst).contains k = false →
      lookupKey (mergeFieldsInto fs acc) k = lookupKey acc k := by
  intro fs
  induction fs with
  | nil =>
    intro acc k _
    simp [mergeFieldsInto]
  | cons hd rest ih =>
    intro acc k hc
    obtain ⟨k₀, v₀⟩ := hd
    simp only [List.map, List.contains_cons, Bool.or_eq_false_iff, beq_eq_false_iff_ne,
      ne_eq] at hc
    obtain ⟨hne, hc'⟩ := hc
    have hstep : ∀ w : Json,
        lookupKey (mergeFieldsInto rest (setKey acc k₀ w)) k = lookupKey acc k := by
      intro w
      rw [ih (setKey acc k₀ w) k hc', lookupKey_setKey_ne acc k₀ k w hne]
    cases v₀ with
    | obj vfs =>
      simp only [mergeFieldsInto]
      split <;> (try split) <;> exact hstep _
    | str s => simpa only [mergeFieldsInto] using hstep _
    | num q => simpa only [mergeFieldsInto] using hstep _
    | bool b => simpa only [mergeFieldsInto] using hstep _
    | null => simpa only [mergeFieldsInto] using hstep _
    | arr xs => simpa only [mergeFieldsInto] using hstep _

/-- Main induction for C3, over a size bound: if the (duplicate-free)
entries `fs` hold the string `s` at the path `k :: ks`, then after merging
`fs` over any accumulator the result still holds `s` there. -/
theorem mergeFieldsInto_preserves :
    ∀ (N : ℕ) (fs acc : List (String × Json)) (k : String) (ks : List String)
      (v : Json) (s : String),
      sizeOf fs ≤ N →
      keysDistinct (fs.map Prod.fst) = true →
      wfFieldsJson fs = true →
      lookupKey fs k = some v →
      getPath v ks = some (Json.str s) →
      ∃ w, lookupKey (mergeFieldsInto fs acc) k = some w ∧
        getPath w ks = some (Json.str s) := by
  intro N
  induction N with
  | zero =>
    intro fs acc k ks v s hsz _ _ hlk _
    cases fs with
    | nil => simp [lookupKey] at hlk
    | cons hd rest =>
      exfalso
      have h' := hsz
      simp at h'
  | succ N ih =>
    intro fs acc k ks v s hsz hdist hwf hlk hgp
    cases fs with
    | nil => simp [lookupKey] at hlk
    | cons hd rest =>
      obtain ⟨k₀, v₀⟩ := hd
      simp only [List.map, keysDistinct, Bool.and_eq_true, Bool.not_eq_true'] at hdist
      simp only [wfFieldsJson, Bool.and_eq_true] at hwf
      obtain ⟨hnm, hdrest⟩ := hdist
      obtain ⟨hwv, hwrest⟩ := hwf
      have hszrest : sizeOf rest ≤ N := by
        have h' := hsz
        simp at h'
        omega
      simp only [lookupKey] at hlk
      by_cases hk : k₀ = k
      · subst hk
        rw [if_pos rfl] at hlk
        cases hlk
        cases v with
        | obj vfs =>
          have hszv : sizeOf vfs ≤ N := by
            have h' := hsz
            simp at h'
            omega
          simp only [wfJson, Bool.and_eq_true] at hwv
          cases ks with
          | nil => simp [getPath] at hgp
          | cons k₁ ks₁ =>
            simp only [getPath] at hgp
            cases hlk1 : lookupKey vfs k₁ with
            | none =>
              rw [hlk1] at hgp
              simp at hgp
            | some v₁ =>
              rw [hlk1] at hgp
              simp only [mergeFieldsInto]
              have hinner : ∀ r : Json,
                  getPath (mergeTranslations (Json.obj vfs) r) (k₁ :: ks₁)
                    = some (Json.str s) := by
                intro r
                obtain ⟨w₁, hw₁, hgw₁⟩ :=
                  ih vfs (spreadFields r) k₁ ks₁ v₁ s hszv hwv.1 hwv.2 hlk1 hgp
                have hmt : mergeTranslations (Json.obj vfs) r
                    = Json.obj (mergeFieldsInto vfs (spreadFields r)) := by
                  simp [mergeTranslations]
                rw [hmt]
                simp only [getPath]
                rw [hw₁]
                exact hgw₁
              have hkeep : getPath (Json.obj vfs) (k₁ :: ks₁) = some (Json.str s) := by
                simp only [getPath]
                rw [hlk1]
                exact hgp
              split
              · split
                · exact ⟨_, by rw [lookupKey_mergeFieldsInto_of_notMem rest _ k₀ hnm,
                    lookupKey_setKey_self], hinner _⟩
                · exact ⟨_, by rw [lookupKey_mergeFieldsInto_of_notMem rest _ k₀ hnm,
                    lookupKey_setKey_self], hkeep⟩
              · exact ⟨_, by rw [lookupKey_mergeFieldsInto_of_notMem rest _ k₀ hnm,
                  lookupKey_setKey_self], hkeep⟩
        | str s' =>
          simp only [mergeFieldsInto]
          exact ⟨_, by rw [lookupKey_mergeFieldsInto_of_notMem rest _ k₀ hnm,
            lookupKey_setKey_self], hgp⟩
        | num q =>
          simp only [mergeFieldsInto]
          exact ⟨_, by rw [lookupKey_mergeFieldsInto_of_notMem rest _ k₀ hnm,
            lookupKey_setKey_self], hgp⟩
        | bool b =>
          simp only [mergeFieldsInto]
          exact ⟨_, by rw [lookupKey_mergeFieldsInto_of_notMem rest _ k₀ hnm,
            lookupKey_setKey_self], hgp⟩
        | null =>
          simp only [mergeFieldsInto]
          exact ⟨_, by rw [lookupKey_mergeFieldsInto_of_notMem rest _ k₀ hnm,
            lookupKey_setKey_self], hgp⟩
        | arr xs =>
          simp only [mergeFieldsInto]
          exact ⟨_, by rw [lookupKey_mergeFieldsInto_of_notMem rest _ k₀ hnm,
            lookupKey_setKey_self], hgp⟩
      · rw [if_neg hk] at hlk
        cases v₀ with
        | obj vfs =>
          simp only [mergeFieldsInto]
          split <;> (try split) <;>
            exact ih rest _ k ks v s hszrest hdrest hwrest hlk hgp
        | str s' =>
          simp only [mergeFieldsInto]
          exact ih rest _ k ks v s hszrest hdrest hwrest hlk hgp
        | num q =>
          simp only [mergeFieldsInto]
          exact ih rest _ k ks v s hszrest hdrest hwrest hlk hgp
        | bool b =>
          simp only [mergeFieldsInto]
          exact ih rest _ k ks v s hszrest hdrest hwrest hlk hgp
        | null =>
          simp only [mergeFieldsInto]
          exact ih rest _ k ks v s hszrest hdrest hwrest hlk hgp
        | arr xs =>
          simp only [mergeFieldsInto]
          exact ih rest _ k ks v s hszrest hdrest hwrest hlk hgp

/-- Claim C3: the auto-translation merge step preserves every existing
manual translation: at every dotted path where the existing (duplicate-key
free) Arabic locale object holds a string, `mergeTranslations(existing,
translated)` holds that same string, whatever `translated` is. -/
theorem mergeTranslations_preserves_existing
    (fs : List (String × Json)) (translated : Json)
    (path : List String) (s : String)
    (hwf : wfJson (Json.obj fs) = true)
    (hget : getPath (Json.obj fs) path = some (Json.str s)) :
    getPath (mergeTranslations (Json.obj fs) translated) path = some (Json.str s) := by
  cases path with
  | nil => simp [getPath] at hget
  | cons k ks =>
    simp only [getPath] at hget
    cases hlk : lookupKey fs k with
    | none =>
      rw [hlk] at hget
      simp at hget
    | some v =>
      rw [hlk] at hget
      simp only [wfJson, Bool.and_eq_true] at hwf
      obtain ⟨w, hw, hgw⟩ := mergeFieldsInto_preserves (sizeOf fs) fs
        (spreadFields translated) k ks v s le_rfl hwf.1 hwf.2 hlk hget
      have hmt : mergeTranslations (Json.obj fs) translated
          = Json.obj (mergeFieldsInto fs (spreadFields translated)) := by
        simp [mergeTranslations]
      rw [hmt]
      simp only [getPath]
      rw [hw]
      exact hgw

/-- Witness for C3: the manual translation at `greeting` survives a merge
with an auto-translated tree that also covers `greeting` and adds
`farewell`. -/
theorem mergeTranslations_preserves_existing_witness :
    wfJson (Json.obj [("greeting", Json.str "marhaba")]) = true ∧
    getPath (Json.obj [("greeting", Json.str "marhaba")]) ["greeting"]
      = some (Json.str "marhaba") ∧
    getPath
      (mergeTranslations (Json.obj [("greeting", Json.str "marhaba")])
        (Json.obj [("greeting", Json.str "[AR: Hello]"),
                   ("farewell", Json.str "[AR: Bye]")]))
      ["greeting"] = some (Json.str "marhaba") :=
  ⟨by simp [wfJson, wfFieldsJson, keysDistinct],
   by simp [getPath, lookupKey],
   mergeTranslations_preserves_existing _ _ _ _
     (by simp [wfJson, wfFieldsJson, keysDistinct])
     (by simp [getPath, lookupKey])⟩

/-- The row loop keeps at most one record per input line. -/
theorem parseCsvRows_length_le (lines : List String) :
    (parseCsvRows lines).length ≤ lines.length := by
  induction lines with
  | nil => simp [parseCsvRows]
  | cons line rest ih =>
    simp only [parseCsvRows]
    split
    · split
      · simpa using ih
      · exact Nat.le_succ_of_le ih
    · exact Nat.le_succ_of_le ih

/-- Every record produced by the row loop comes from a line with at least
two fields, both of which `Number()` parsed to the record's finite time and
flux. -/
theorem parseCsvRows_sound :
    ∀ (lines : List String) (pt : LightCurvePoint), pt ∈ parseCsvRows lines →
      ∃ line ∈ lines, ∃ p0 p1 t, csvParts line = p0 :: p1 :: t ∧
        jsNumber p0 = some pt.time ∧ jsNumber p1 = some pt.flux := by
  intro lines
  induction lines with
  | nil =>
    intro pt h
    simp [parseCsvRows] at h
  | cons line rest ih =>
    intro pt h
    have hlift : pt ∈ parseCsvRows rest →
        ∃ l ∈ line :: rest, ∃ p0 p1 t, csvParts l = p0 :: p1 :: t ∧
          jsNumber p0 = some pt.time ∧ jsNumber p1 = some pt.flux := by
      intro hm
      obtain ⟨l, hl, hrest⟩ := ih pt hm
      exact ⟨l, List.mem_cons_of_mem _ hl, hrest⟩
    simp only [parseCsvRows] at h
    split at h
    · split at h
      · rcases List.mem_cons.mp h with heq' | hmem
        · subst heq'
          exact ⟨line, List.mem_cons_self _ _, _, _, _, by assumption,
            by assumption, by assumption⟩
        · exact hlift hmem
      · exact hlift h
    · exact hlift h

/-- Claim C9: `parseCsvLightCurve` is total (a Lean function) and
well-formed: every produced record's time and flux were parsed as finite
numbers (`jsNumber` returns `none` on `NaN`/`Infinity`), the output has at
most one record per non-empty input line, input with no non-empty lines
gives the empty list, and the first non-empty line is dropped from the row
loop exactly when it contains both `time` and `flux` case-insensitively. -/
theorem parseCsvLightCurve_wellformed (text : String) :
    (nonEmptyLines text = [] → parseCsvLightCurve text = []) ∧
    (parseCsvLightCurve text).length ≤ (nonEmptyLines text).length ∧
    (∀ pt ∈ parseCsvLightCurve text,
      ∃ line ∈ nonEmptyLines text, ∃ p0 p1 t, csvParts line = p0 :: p1 :: t ∧
        jsNumber p0 = some pt.time ∧ jsNumber p1 = some pt.flux) ∧
    (∀ l0 rest, nonEmptyLines text = l0 :: rest →
      (isHeaderLine l0 = true → parseCsvLightCurve text = parseCsvRows rest) ∧
      (isHeaderLine l0 = false →
        parseCsvLightCurve text = parseCsvRows (l0 :: rest))) := by
  refine ⟨?_, ?_, ?_, ?_⟩
  · intro h
    simp [parseCsvLightCurve, h]
  · cases hl : nonEmptyLines text with
    | nil => simp [parseCsvLightCurve, hl]
    | cons l0 rest =>
      have hred : parseCsvLightCurve text
          = if isHeaderLine l0 = true then parseCsvRows rest
            else parseCsvRows (l0 :: rest) := by
        rw [parseCsvLightCurve, hl]
      rw [hred]
      split
      · exact Nat.le_succ_of_le (parseCsvRows_length_le rest)
      · exact parseCsvRows_length_le (l0 :: rest)
  · intro pt hpt
    cases hl : nonEmptyLines text with
    | nil =>
      rw [parseCsvLightCurve, hl] at hpt
      simp at hpt
    | cons l0 rest =>
      have hred : parseCsvLightCurve text
          = if isHeaderLine l0 = true then parseCsvRows rest
            else parseCsvRows (l0 :: rest) := by
        rw [parseCsvLightCurve, hl]
      rw [hred] at hpt
      by_cases hh : isHeaderLine l0 = true
      · rw [if_pos hh] at hpt
        obtain ⟨l, hlmem, hrest⟩ := parseCsvRows_sound rest pt hpt
        exact ⟨l, List.mem_cons_of_mem _ hlmem, hrest⟩
      · rw [if_neg hh] at hpt
        exact parseCsvRows_sound (l0 :: rest) pt hpt
  · intro l0 rest h
    constructor <;> intro hh <;> simp [parseCsvLightCurve, h, hh]

/-- Witness for C9 on a concrete CSV: the `time,flux` header line is
dropped from the row loop. -/
theorem parseCsvLightCurve_wellformed_witness :
    nonEmptyLines "time,flux\n1,2\nbad\n3,0.5" = ["time,flux", "1,2", "bad", "3,0.5"] ∧
    isHeaderLine "time,flux" = true ∧
    parseCsvLightCurve "time,flux\n1,2\nbad\n3,0.5"
      = parseCsvRows ["1,2", "bad", "3,0.5"] :=
  ⟨by decide, by decide,
   ((parseCsvLightCurve_wellformed "time,flux\n1,2\nbad\n3,0.5").2.2.2
     "time,flux" ["1,2", "bad", "3,0.5"] (by decide)).1 (by decide)⟩

/-- `Number(x.toFixed(3))` is monotone. -/
theorem jsToFixed3_mono (x y : ℝ) (h : x ≤ y) : jsToFixed3 x ≤ jsToFixed3 y := by
  unfold jsToFixed3
  have hf : ⌊x * 1000 + 1/2⌋ ≤ ⌊y * 1000 + 1/2⌋ := Int.floor_mono (by linarith)
  have hf' : ((⌊x * 1000 + 1/2⌋ : ℤ) : ℝ) ≤ ((⌊y * 1000 + 1/2⌋ : ℤ) : ℝ) := by
    exact_mod_cast hf
  linarith

/-- A multiple of one thousandth is a fixed point of
`Number(x.toFixed(3))`. -/
theorem jsToFixed3_thousandth (n : ℤ) :
    jsToFixed3 ((n : ℝ) / 1000) = (n : ℝ) / 1000 := by
  unfold jsToFixed3
  have h1 : (n : ℝ) / 1000 * 1000 + 1/2 = (1/2 : ℝ) + (n : ℤ) := by
    field_simp
    ring
  rw [h1, Int.floor_add_int]
  have h2 : ⌊(1/2 : ℝ)⌋ = 0 := by
    rw [Int.floor_eq_iff]
    norm_num
  rw [h2]
  push_cast
  ring

/-- Claim C10: after a simulated training job completes, the published mock
metrics satisfy accuracy ∈ [0.7, 0.99], precision ∈ [0.65, 0.98],
recall ∈ [0.6, 0.97] and recall ≤ precision ≤ accuracy, and every
`jobResults` record's probability lies in [0, 1] — for every learning rate
and epochs value within the UI slider ranges (0.0001–0.01 and 1–50). -/
theorem demoMetrics_invariants (lr e : ℚ)
    (_hlr1 : 0.0001 ≤ lr) (_hlr2 : lr ≤ 0.01) (_he1 : 1 ≤ e) (_he2 : e ≤ 50) :
    (0.7 ≤ (demoMetrics (lr : ℝ) (e : ℝ)).1 ∧ (demoMetrics (lr : ℝ) (e : ℝ)).1 ≤ 0.99) ∧
    (0.65 ≤ (demoMetrics (lr : ℝ) (e : ℝ)).2.1 ∧
      (demoMetrics (lr : ℝ) (e : ℝ)).2.1 ≤ 0.98) ∧
    (0.6 ≤ (demoMetrics (lr : ℝ) (e : ℝ)).2.2 ∧
      (demoMetrics (lr : ℝ) (e : ℝ)).2.2 ≤ 0.97) ∧
    (demoMetrics (lr : ℝ) (e : ℝ)).2.2 ≤ (demoMetrics (lr : ℝ) (e : ℝ)).2.1 ∧
    (demoMetrics (lr : ℝ) (e : ℝ)).2.1 ≤ (demoMetrics (lr : ℝ) (e : ℝ)).1 ∧
    (∀ r ∈ mockResults.map (demoSpreadUpdate lr),
      0 ≤ r.probability ∧ r.probability ≤ 1) := by
  have hA1 : (0.7 : ℝ) ≤ demoAccuracy (lr : ℝ) (e : ℝ) := by
    unfold demoAccuracy
    exact le_max_left _ _
  have hA2 : demoAccuracy (lr : ℝ) (e : ℝ) ≤ 0.99 := by
    unfold demoAccuracy
    exact max_le (by norm_num) (min_le_left _ _)
  have hPeq : demoPrecision (lr : ℝ) (e : ℝ) = demoAccuracy (lr : ℝ) (e : ℝ) - 0.02 := by
    unfold demoPrecision
    rw [min_eq_right (by linarith), max_eq_right (by linarith)]
  have hReq : demoRecall (lr : ℝ) (e : ℝ) = demoAccuracy (lr : ℝ) (e : ℝ) - 0.03 := by
    unfold demoRecall
    rw [min_eq_right (by linarith), max_eq_right (by linarith)]
  have hlow : ∀ (n : ℤ) (x : ℝ), (n : ℝ) / 1000 ≤ x → (n : ℝ) / 1000 ≤ jsToFixed3 x := by
    intro n x h
    calc (n : ℝ) / 1000 = jsToFixed3 ((n : ℝ) / 1000) := (jsToFixed3_thousandth n).symm
      _ ≤ jsToFixed3 x := jsToFixed3_mono _ _ h
  have hhigh : ∀ (n : ℤ) (x : ℝ), x ≤ (n : ℝ) / 1000 → jsToFixed3 x ≤ (n : ℝ) / 1000 := by
    intro n x h
    calc jsToFixed3 x ≤ jsToFixed3 ((n : ℝ) / 1000) := jsToFixed3_mono _ _ h
      _ = (n : ℝ) / 1000 := jsToFixed3_thousandth n
  have hmet : demoMetrics (lr : ℝ) (e : ℝ)
      = (jsToFixed3 (demoAccuracy (lr : ℝ) (e : ℝ)),
         jsToFixed3 (demoPrecision (lr : ℝ) (e : ℝ)),
         jsToFixed3 (demoRecall (lr : ℝ) (e : ℝ))) := rfl
  rw [hmet]
  have h700 : ((700 : ℤ) : ℝ) / 1000 = 0.7 := by norm_num
  have h990 : ((990 : ℤ) : ℝ) / 1000 = 0.99 := by norm_num
  have h650 : ((650 : ℤ) : ℝ) / 1000 = 0.65 := by norm_num
  have h980 : ((980 : ℤ) : ℝ) / 1000 = 0.98 := by norm_num
  have h600 : ((600 : ℤ) : ℝ) / 1000 = 0.6 := by norm_num
  have h970 : ((970 : ℤ) : ℝ) / 1000 = 0.97 := by norm_num
  refine ⟨⟨?_, ?_⟩, ⟨?_, ?_⟩, ⟨?_, ?_⟩, ?_, ?_, ?_⟩
  · rw [← h700]
    exact hlow 700 _ (by rw [h700]; exact hA1)
  · rw [← h990]
    exact hhigh 990 _ (by rw [h990]; exact hA2)
  · rw [← h650]
    exact hlow 650 _ (by rw [h650]; rw [hPeq]; linarith)
  · rw [← h980]
    exact hhigh 980 _ (by rw [h980]; rw [hPeq]; linarith)
  · rw [← h600]
    exact hlow 600 _ (by rw [h600]; rw [hReq]; linarith)
  · rw [← h970]
    exact hhigh 970 _ (by rw [h970]; rw [hReq]; linarith)
  · exact jsToFixed3_mono _ _ (by rw [hPeq, hReq]; linarith)
  · exact jsToFixed3_mono _ _ (by rw [hPeq]; linarith)
  · have hprob : ∀ p : ℚ, 0 ≤ demoProbability lr p ∧ demoProbability lr p ≤ 1 := by
      intro p
      unfold demoProbability
      exact ⟨le_max_left _ _, max_le (by norm_num) (min_le_left _ _)⟩
    intro r hr
    simp only [mockResults, List.map_cons, List.map_nil, List.mem_cons,
      List.not_mem_nil, or_false] at hr
    rcases hr with rfl | rfl | rfl <;> exact hprob _

/-- Witness for C10 at the default slider values `learningRate = 0.001`,
`epochs = 10`. -/
theorem demoMetrics_invariants_witness :
    ((0.0001 : ℚ) ≤ 0.001 ∧ (0.001 : ℚ) ≤ 0.01 ∧ (1 : ℚ) ≤ 10 ∧ (10 : ℚ) ≤ 50) ∧
    ((0.7 ≤ (demoMetrics ((0.001 : ℚ) : ℝ) ((10 : ℚ) : ℝ)).1 ∧
      (demoMetrics ((0.001 : ℚ) : ℝ) ((10 : ℚ) : ℝ)).1 ≤ 0.99) ∧
     (0.65 ≤ (demoMetrics ((0.001 : ℚ) : ℝ) ((10 : ℚ) : ℝ)).2.1 ∧
      (demoMetrics ((0.001 : ℚ) : ℝ) ((10 : ℚ) : ℝ)).2.1 ≤ 0.98) ∧
     (0.6 ≤ (demoMetrics ((0.001 : ℚ) : ℝ) ((10 : ℚ) : ℝ)).2.2 ∧
      (demoMetrics ((0.001 : ℚ) : ℝ) ((10 : ℚ) : ℝ)).2.2 ≤ 0.97) ∧
     (demoMetrics ((0.001 : ℚ) : ℝ) ((10 : ℚ) : ℝ)).2.2
       ≤ (demoMetrics ((0.001 : ℚ) : ℝ) ((10 : ℚ) : ℝ)).2.1 ∧
     (demoMetrics ((0.001 : ℚ) : ℝ) ((10 : ℚ) : ℝ)).2.1
       ≤ (demoMetrics ((0.001 : ℚ) : ℝ) ((10 : ℚ) : ℝ)).1 ∧
     (∀ r ∈ mockResults.map (demoSpreadUpdate (0.001 : ℚ)),
       0 ≤ r.probability ∧ r.probability ≤ 1)) :=
  ⟨⟨by norm_num, by norm_num, by norm_num, by norm_num⟩,
   demoMetrics_invariants 0.001 10 (by norm_num) (by norm_num) (by norm_num) (by norm_num)⟩
